import Mathlib

/-!
# Verification of the documentation generator (`docs.go`)

A shallow embedding of the documentation-rendering code of the `cli`
repository (`src/docs.go`) and proofs about it.

Go strings are modelled as `List Char` (one element per Unicode code point,
matching `utf8.RuneCountInString s = s.length`); where the Go code measures
*byte* lengths (`len(s)`), the embedding uses `utf8Len`, the sum of the UTF-8
byte sizes of the code points, which agrees with Go's `len` on every valid
UTF-8 string.
-/

namespace CliDocs

/-- A Go string, as its sequence of Unicode code points. -/
abbrev GoStr := List Char

/-- Convenience: build a `GoStr` from a Lean string literal. -/
def str (s : String) : GoStr := s.data

/-- Go's `len(s)`: the UTF-8 byte length of the string. -/
def utf8Len (s : GoStr) : Nat := (s.map Char.utf8Size).sum

/-- Go's `unicode.IsSpace` (the Unicode White_Space property). -/
def goIsSpace (c : Char) : Bool :=
  (0x9 ≤ c.toNat && c.toNat ≤ 0xd) || c = ' ' || c.toNat = 0x85 || c.toNat = 0xa0 ||
  c.toNat = 0x1680 || (0x2000 ≤ c.toNat && c.toNat ≤ 0x200a) ||
  c.toNat = 0x2028 || c.toNat = 0x2029 || c.toNat = 0x202f ||
  c.toNat = 0x205f || c.toNat = 0x3000

/-- Drop the longest run of characters satisfying `p` from the left. -/
def trimLeftP (p : Char → Bool) (s : GoStr) : GoStr := s.dropWhile p

/-- Drop the longest run of characters satisfying `p` from the right. -/
def trimRightP (p : Char → Bool) (s : GoStr) : GoStr := (s.reverse.dropWhile p).reverse

/-- Go's `strings.TrimSpace`. -/
def goTrimSpace (s : GoStr) : GoStr := trimRightP goIsSpace (trimLeftP goIsSpace s)

/-- Go's `strings.Trim s cutset`: trim any run of cutset characters from both ends. -/
def goTrim (s : GoStr) (cutset : GoStr) : GoStr :=
  trimRightP (cutset.contains ·) (trimLeftP (cutset.contains ·) s)

/-- Go's `strings.TrimRight s cutset`. -/
def goTrimRight (s : GoStr) (cutset : GoStr) : GoStr := trimRightP (cutset.contains ·) s

/-- Go's `strings.ReplaceAll s "\n" " "` (each pattern is one character here). -/
def replaceNLBySpace (s : GoStr) : GoStr := s.map (fun c => if c = '\n' then ' ' else c)

/-- `tabularTemplate.PrepareMultilineString` from `docs.go`:
replace newlines by spaces, `TrimSpace`, then `TrimRight` on the cutset `".\r\n\t"`. -/
def PrepareMultilineString (s : GoStr) : GoStr :=
  goTrimRight (goTrimSpace (replaceNLBySpace s)) (str ".\r\n\t")

/-! ## The flag model

`docs.go` consumes flags through the `DocGenerationFlag` capability (names,
usage, whether a value is taken, default value as display text, env vars);
flags not implementing it are skipped.  `PrepareFlags` additionally
special-cases `*BoolFlag`.  A flag is modelled by whether it offers the
capability, its capability data, and its `*BoolFlag` status. -/

/-- The `DocGenerationFlag` capability data. -/
structure FlagInfo where
  names : List GoStr
  usage : GoStr
  takesValue : Bool
  value : GoStr
  envVars : List GoStr
  deriving DecidableEq, Repr

/-- One flag of the consumed object model. `docInfo = none` models a flag that
does not implement `DocGenerationFlag`.  `isBoolFlag`/`boolValue` model the
`*BoolFlag` type assertion and its `Value` field. `hiddenF` models the
flag's hidden state consumed by `VisibleFlags`. -/
structure Flag where
  docInfo : Option FlagInfo
  isBoolFlag : Bool
  boolValue : Bool
  hiddenF : Bool
  deriving DecidableEq, Repr

/-- `flagDetails` from `docs.go`. -/
def flagDetails (fl : FlagInfo) : GoStr :=
  let description := fl.usage ++ (if fl.value ≠ [] then str " (default: " ++ fl.value ++ str ")" else [])
  str ": " ++ description

/-- One iteration of the name loop of `prepareFlags` (`docs.go` lines
183-193): trim the name, insert the separator when something was already
appended after the opener (detected by byte length), then append the
dash-spelled name (`--` for byte length > 1, `-` otherwise). -/
def flagNameStep (sep opener : GoStr) (m s : GoStr) : GoStr :=
  let trimmed := goTrimSpace s
  let m := if utf8Len m > utf8Len opener then m ++ sep else m
  if utf8Len trimmed > 1 then m ++ str "--" ++ trimmed else m ++ str "-" ++ trimmed

/-- The body of the `prepareFlags` loop for one flag implementing the
capability: fold over its names building the rendered string. -/
def prepareFlagArg (sep opener closer value : GoStr) (addDetails : Bool) (fl : FlagInfo) : GoStr :=
  let modifiedArg := fl.names.foldl (flagNameStep sep opener) opener
  let modifiedArg := modifiedArg ++ closer
  let modifiedArg := if fl.takesValue then modifiedArg ++ str "=" ++ value else modifiedArg
  let modifiedArg := if addDetails then modifiedArg ++ flagDetails fl else modifiedArg
  modifiedArg ++ str "\n"

/-- The loop of `prepareFlags`: skip flags without the capability, render the
others in declaration order. -/
def prepareFlagsLoop (flags : List Flag) (sep opener closer value : GoStr) (addDetails : Bool) :
    List GoStr :=
  match flags with
  | [] => []
  | f :: rest =>
    match f.docInfo with
    | none => prepareFlagsLoop rest sep opener closer value addDetails
    | some fl => prepareFlagArg sep opener closer value addDetails fl ::
        prepareFlagsLoop rest sep opener closer value addDetails

/-- Byte-wise (equivalently code-point-wise) string comparison, Go's `s <= t`. -/
def strLE : GoStr → GoStr → Bool
  | [], _ => true
  | _ :: _, [] => false
  | a :: as, b :: bs => if a < b then true else if b < a then false else strLE as bs

/-- Insert into a sorted list of strings. -/
def insertStr (x : GoStr) : List GoStr → List GoStr
  | [] => [x]
  | y :: ys => if strLE x y then x :: y :: ys else y :: insertStr x ys

/-- `sort.Strings`: ascending lexicographic sort.  Since string comparison is a
total order that is antisymmetric up to equality, every correct sorting
algorithm produces the same list; insertion sort is used here. -/
def sortStrings : List GoStr → List GoStr
  | [] => []
  | x :: xs => insertStr x (sortStrings xs)

/-- `prepareFlags` from `docs.go`: render every capability-bearing flag, then
`sort.Strings` the result. -/
def prepareFlags (flags : List Flag) (sep opener closer value : GoStr) (addDetails : Bool) :
    List GoStr :=
  sortStrings (prepareFlagsLoop flags sep opener closer value addDetails)

/-- `prepareArgsWithValues` from `docs.go` (detailed / prose mode). -/
def prepareArgsWithValues (flags : List Flag) : List GoStr :=
  prepareFlags flags (str ", ") (str "**") (str "**") (str "\"\"") true

/-- `prepareArgsSynopsis` from `docs.go` (synopsis mode). -/
def prepareArgsSynopsis (flags : List Flag) : List GoStr :=
  prepareFlags flags (str "|") (str "[") (str "]") (str "[value]") false

/-- The record prepared per flag for the tabular template. -/
structure cliTabularFlagTemplate where
  Name : GoStr
  Aliases : List GoStr
  Usage : GoStr
  TakesValue : Bool
  Default : GoStr
  EnvVars : List GoStr
  deriving DecidableEq, Repr

/-- Go's `strconv.FormatBool`. -/
def goFormatBool (b : Bool) : GoStr := if b then str "true" else str "false"

/-- One iteration of the indexed name loop of `PrepareFlags` (`docs.go` lines
345-361): the first name (index 0) becomes `--name` unconditionally; every
later name becomes an alias, dash-spelled by byte length. -/
def tabFlagNameStep (f : cliTabularFlagTemplate) (p : Nat × GoStr) : cliTabularFlagTemplate :=
  let name := goTrimSpace p.2
  if p.1 = 0 then { f with Name := str "--" ++ name }
  else { f with Aliases := f.Aliases ++
    [if utf8Len name > 1 then str "--" ++ name else str "-" ++ name] }

/-- `tabularTemplate.PrepareFlags` from `docs.go`: skip flags without the
capability; special-case `*BoolFlag` defaults; the first declared name becomes
`--name` unconditionally and later names become aliases spelled by byte
length. -/
def PrepareFlags (flags : List Flag) : List cliTabularFlagTemplate :=
  flags.filterMap fun appFlag =>
    match appFlag.docInfo with
    | none => none
    | some fl =>
      let f0 : cliTabularFlagTemplate :=
        { Name := [], Aliases := [],
          Usage := PrepareMultilineString fl.usage,
          EnvVars := fl.envVars,
          TakesValue := fl.takesValue,
          Default := if appFlag.isBoolFlag then goFormatBool appFlag.boolValue else fl.value }
      some <| fl.names.enum.foldl tabFlagNameStep f0

/-- The dash-spelling of one flag name as the name-spelling rule words it:
trim the name, then one dash for UTF-8 byte length 1 and two dashes for byte
length at least 2.  Stated from the spec's rule; the characterization theorems
below prove that `prepareFlagArg` (all names) and `PrepareFlags` (aliases)
render names exactly this way, while the `PrepareFlags` canonical name always
receives two dashes. -/
def dashSpelled (s : GoStr) : GoStr :=
  let name := goTrimSpace s
  if utf8Len name > 1 then str "--" ++ name else str "-" ++ name

/-- Join already-rendered pieces with a separator: the head piece, then
`sep ++ piece` for every later piece. -/
def sepJoined (sep : GoStr) : List GoStr → GoStr
  | [] => []
  | x :: xs => x ++ (xs.map (fun y => sep ++ y)).flatten

/-- The same flag with every declared name surrounded-whitespace-trimmed. -/
def trimFlagNames (f : Flag) : Flag :=
  { f with docInfo := f.docInfo.map (fun fl => { fl with names := fl.names.map goTrimSpace }) }

/-! ## Splitting helpers -/

/-- Split a string at every character satisfying `p`, keeping empty pieces
(`n` separators yield `n+1` pieces), like Go's `strings.Split` generalized to
a character predicate. -/
def splitP (p : Char → Bool) : GoStr → List GoStr
  | [] => [[]]
  | c :: rest =>
    let r := splitP p rest
    if p c then [] :: r
    else
      match r with
      | [] => [[c]]
      | x :: xs => (c :: x) :: xs

/-- Go's `strings.Split s sep` for a one-character separator. -/
def splitOnChar (sep : Char) (s : GoStr) : List GoStr := splitP (· = sep) s

/-- Go's `strings.FieldsFunc`: the maximal runs of characters not satisfying
`p`, i.e. the split pieces with the empty ones dropped. -/
def goFields (p : Char → Bool) (s : GoStr) : List GoStr :=
  (splitP p s).filter (· ≠ [])

/-! ## The command tree -/

/-- One command of the consumed object model (a node of the command tree). -/
inductive Command : Type where
  | mk : (name : GoStr) → (aliases : List GoStr) → (usage : GoStr) → (usageText : GoStr) →
      (argsUsage : GoStr) → (description : GoStr) → (category : GoStr) → (hidden : Bool) →
      (flags : List Flag) → (commands : List Command) → Command

def Command.name : Command → GoStr
  | .mk n _ _ _ _ _ _ _ _ _ => n

def Command.aliases : Command → List GoStr
  | .mk _ a _ _ _ _ _ _ _ _ => a

def Command.usage : Command → GoStr
  | .mk _ _ u _ _ _ _ _ _ _ => u

def Command.usageText : Command → GoStr
  | .mk _ _ _ ut _ _ _ _ _ _ => ut

def Command.argsUsage : Command → GoStr
  | .mk _ _ _ _ au _ _ _ _ _ => au

def Command.description : Command → GoStr
  | .mk _ _ _ _ _ d _ _ _ _ => d

def Command.category : Command → GoStr
  | .mk _ _ _ _ _ _ c _ _ _ => c

def Command.hidden : Command → Bool
  | .mk _ _ _ _ _ _ _ h _ _ => h

def Command.flags : Command → List Flag
  | .mk _ _ _ _ _ _ _ _ f _ => f

def Command.commands : Command → List Command
  | .mk _ _ _ _ _ _ _ _ _ cs => cs

/-- Modelled from the spec: the object model exposes, per command, its
ordered sequence of *visible* flags; the code of `VisibleFlags` itself is not
part of `src/docs.go`. -/
def Command.VisibleFlags (c : Command) : List Flag :=
  c.flags.filter (fun f => !f.hiddenF)

/-- Modelled from the spec: `command.Names()` is the command's display name
followed by its aliases ("the joined alias/name list"); the code of `Names`
itself is not part of `src/docs.go`. -/
def Command.NamesList (c : Command) : List GoStr :=
  c.name :: c.aliases

/-- `prepareUsageText` from `docs.go`. -/
def prepareUsageText (c : Command) : GoStr :=
  if c.usageText = [] then []
  else
    let preparedUsageText := goTrim c.usageText (str "\n")
    if preparedUsageText.contains '\n' then
      (splitP (· = '\n') preparedUsageText).foldl
        (fun acc ln => acc ++ str "    " ++ ln ++ str "\n") []
    else str ">" ++ preparedUsageText ++ str "\n"

/-- `prepareUsage` from `docs.go`. -/
def prepareUsage (c : Command) (usageText : GoStr) : GoStr :=
  if c.usage = [] then []
  else c.usage ++ str "\n" ++ (if usageText ≠ [] then str "\n" else [])

/-- The block `prepareCommands` emits for one visible command: the Markdown
heading, name/alias list, usage, usage text and detailed flag list. -/
def prepareCommandBlock (c : Command) (level : Nat) : GoStr :=
  let usageText := prepareUsageText c
  let usage := prepareUsage c usageText
  let prepared := List.replicate (level + 2) '#' ++ str " " ++
    (str ", ").intercalate c.NamesList ++ str "\n\n" ++ usage ++ usageText
  let flags := prepareArgsWithValues c.VisibleFlags
  if flags.length > 0 then prepared ++ str "\n" ++ (str "\n").intercalate flags
  else prepared

/-- `prepareCommands` from `docs.go` (flowing mode): skip hidden commands
(together with their whole subtree), emit the block of each visible command
followed, pre-order, by the blocks of its subcommands at `level+1`. -/
def prepareCommands : List Command → Nat → List GoStr
  | [], _ => []
  | Command.mk n als u ut au de cat hid fls subs :: rest, level =>
    if hid then prepareCommands rest level
    else
      prepareCommandBlock (Command.mk n als u ut au de cat hid fls subs) level ::
        ((if subs.length > 0 then prepareCommands subs (level + 1) else []) ++
          prepareCommands rest level)

/-- The record prepared per command for the tabular template. -/
inductive cliTabularCommandTemplate : Type where
  | mk : (AppPath : GoStr) → (Name : GoStr) → (Aliases : List GoStr) → (Usage : GoStr) →
      (ArgsUsage : GoStr) → (UsageText : List GoStr) → (Description : GoStr) →
      (Category : GoStr) → (Flags : List cliTabularFlagTemplate) →
      (SubCommands : List cliTabularCommandTemplate) → (Level : Nat) →
      cliTabularCommandTemplate

def cliTabularCommandTemplate.Name : cliTabularCommandTemplate → GoStr
  | .mk _ nm _ _ _ _ _ _ _ _ _ => nm

def cliTabularCommandTemplate.SubCommands :
    cliTabularCommandTemplate → List cliTabularCommandTemplate
  | .mk _ _ _ _ _ _ _ _ _ sc _ => sc

/-- `tabularTemplate.PrepareCommands` from `docs.go`: one record per listed
command (note: no hidden check here), whose `Name` is the trimmed space-join of
the parent chain and whose `SubCommands` recurse over *all* children with the
untrimmed joined name as the new parent name. -/
def PrepareCommands : List Command → GoStr → GoStr → Nat → List cliTabularCommandTemplate
  | [], _, _, _ => []
  | Command.mk n als u ut au de cat _hid fls subs :: rest, appPath, parentCommandName, level =>
    cliTabularCommandTemplate.mk
      appPath
      (goTrimSpace (parentCommandName ++ str " " ++ n))
      als
      (PrepareMultilineString u)
      (PrepareMultilineString au)
      (goFields (· = '\n') ut)
      (PrepareMultilineString de)
      cat
      (PrepareFlags ((fls.filter (fun f => !f.hiddenF))))
      (PrepareCommands subs appPath (parentCommandName ++ str " " ++ n) (level + 1))
      level
      :: PrepareCommands rest appPath parentCommandName level

/-! ## The table reflow engine (`Prettify`)

`Prettify` scans the text with the (multiline, leftmost, greedy) pattern
`^(\|[^\n]+\|\r?\n)((?:\|:?-+:?)+\|)(\n(?:\|[^\n]+\|\r?\n?)*)?$`.
The model below reimplements that discovery as a line scanner over the
`'\n'`-split of the text, per the following exhaustive reading of the pattern:

* a match starts at a line start; its first line (header) is a full line that,
  after an optional trailing `'\r'`, starts and ends with `'|'` with at least
  one character between them;
* the second line must consist exactly of `|`-bounded cells each matching
  `:?-+:?` (no trailing `'\r'` is possible, since `$` must follow directly or
  a `\n` must begin the body group);
* the body is the maximal run of following lines of the same shape as the
  header (each with optional trailing `'\r'`); the newline after the last
  consumed line is part of the match iff the position after it satisfies `$`,
  i.e. iff the following split piece is empty (an empty line or end of text);
* the search resumes after the match (matches never overlap).

Go panics (out-of-range indexing on `lengths`/`centered` for irregular
tables) are modelled by `Option`: `none` is a panic. -/

/-- Shape of a header or body row line: after stripping one optional trailing
`'\r'`, the line starts with `'|'`, ends with `'|'`, and has at least one
character in between (`\|[^\n]+\|\r?`). -/
def lineRowOK (l : GoStr) : Bool :=
  let core := if l.getLast? = some '\r' then l.dropLast else l
  3 ≤ core.length && core.head? = some '|' && core.getLast? = some '|'

/-- One separator cell, `:?-+:?`: optional bounding colons around a nonempty
run of dashes. -/
def sepCellOK (c : GoStr) : Bool :=
  let c1 := if c.head? = some ':' then c.tail else c
  let c2 := if c1.getLast? = some ':' then c1.dropLast else c1
  !c2.isEmpty && c2.all (· = '-')

/-- A full separator line, `(\|:?-+:?)+\|`: splitting on `'|'` must give an
empty first and last piece (bounding pipes) and only valid cells between. -/
def sepLineOK (l : GoStr) : Bool :=
  let parts := splitOnChar '|' l
  3 ≤ parts.length && parts.head? = some [] && parts.getLast? = some [] &&
    ((parts.drop 1).dropLast.all sepCellOK)

/-- The scanner behind `regexp.FindAllString` for the table pattern, over the
`'\n'`-split pieces of the text.  The fuel argument only bounds the recursion;
it starts at the number of pieces, which strictly decreases at every step, so
it is never exhausted. -/
def findTablesAux : Nat → List GoStr → List GoStr
  | 0, _ => []
  | _ + 1, [] => []
  | _ + 1, [_] => []
  | fuel + 1, l :: sp :: rest =>
    if lineRowOK l && sepLineOK sp then
      let body := rest.takeWhile lineRowOK
      let rest3 := rest.drop body.length
      let includeNL := rest3.head? = some []
      ((str "\n").intercalate (l :: sp :: body) ++ (if includeNL then str "\n" else []))
        :: findTablesAux fuel rest3
    else findTablesAux fuel (sp :: rest)

/-- All raw table blocks of the text, leftmost first, non-overlapping. -/
def findTables (s : GoStr) : List GoStr :=
  let pieces := splitOnChar '\n' s
  findTablesAux pieces.length pieces

/-- Parse one table line into its cells: `strings.Trim(line, "| ")`, split on
`'|'` dropping empty fields (`strings.FieldsFunc`), `TrimSpace` each cell. -/
def parseLine (line : GoStr) : List GoStr :=
  (goFields (· = '|') (goTrim line (str "| "))).map goTrimSpace

/-- The inner loop of the width computation for one row: for each cell at
index `i`, `lengths[i] = max(lengths[i], len(cell))`; indexing past the end of
`lengths` is Go's out-of-range panic (`none`). -/
def bumpRow : List Nat → List GoStr → Option (List Nat)
  | lengths, [] => some lengths
  | [], _ :: _ => none
  | L :: ls, c :: cs =>
    (bumpRow ls cs).map (fun r => (if c.length > L then c.length else L) :: r)

/-- The width computation of `Prettify`: start from `make([]int, len(matrix[0]))`
and fold every row except the separator (index 1) through `bumpRow`. -/
def computeLengths (matrix : List (List GoStr)) : Option (List Nat) :=
  matrix.enum.foldlM
    (fun acc p => if p.1 = 1 then some acc else bumpRow acc p.2)
    (List.replicate (matrix.headD []).length 0)

/-- The local `max` helper defined at the top of `Prettify`
(`if x > y { return x }; return y`). -/
def goMax (x y : Nat) : Nat := if x > y then x else y

/-- The value of one column accumulator after folding the rows of `(index,
row)` pairs, starting from `u`, skipping the separator row (index 1): the
running maximum of the cell lengths at column `j`.  `computeLengths` produces
exactly `colAcc j matrix.enum 0` at every column `j` (proved below). -/
def colAcc (j : Nat) : List (Nat × List GoStr) → Nat → Nat
  | [], u => u
  | p :: rest, u =>
    colAcc j rest (if p.1 = 1 then u else
      match p.2[j]? with
      | some c => if c.length > u then c.length else u
      | none => u)

/-- Column alignment, inferred from the separator row `matrix[1]`: centered
iff the cell starts and ends with `':'`. -/
def centeredOf (matrix : List (List GoStr)) : List Bool :=
  (matrix.getD 1 []).map (fun cell => [':'].isPrefixOf cell && [':'].isSuffixOf cell)

/-- Regenerated separator cell: `:` + `width` dashes + `:` when centered,
`width + 2` dashes otherwise. -/
def formatSepCell (isCentered : Bool) (L : Nat) : GoStr :=
  if isCentered then ':' :: (List.replicate (goMax 0 L) '-' ++ [':'])
  else List.replicate (goMax 0 (L + 2)) '-'

/-- Padding of one non-separator cell (`docs.go` lines 447-467).  The Go code
computes `padLeft`/`padRight` with `int` arithmetic; since `Nat` subtraction
truncates at `0` and Go's `max(1, ·)` lifts every non-positive value to `1`,
the `Nat` formulation below agrees with the Go `int` one on all inputs. -/
def formatCell (isCentered : Bool) (L : Nat) (cell : GoStr) : GoStr :=
  let cellWidth := cell.length
  let padLeft := if isCentered then goMax 1 ((L - cellWidth) / 2) else 1
  let padRight := if isCentered then goMax 1 (L - cellWidth - (padLeft - 1))
    else goMax 1 (L - cellWidth + 1)
  List.replicate padLeft ' ' ++
    (if padLeft + cellWidth + padRight ≤ L + 1 then [' '] else []) ++
    cell ++ List.replicate padRight ' '

/-- Format one row against the `centered` and `lengths` tables; reading past
the end of either is Go's out-of-range panic (`none`). -/
def formatCells : List GoStr → List Bool → List Nat → Bool → Option (List GoStr)
  | [], _, _, _ => some []
  | _ :: _, [], _, _ => none
  | _ :: _, _ :: _, [], _ => none
  | c :: cs, b :: bs, L :: Ls, isSep =>
    (formatCells cs bs Ls isSep).map
      (fun r => (if isSep then formatSepCell b L else formatCell b L c) :: r)

/-- The cell-formatting loop of `Prettify` over the whole matrix (row 1 is the
separator row). -/
def formatMatrix (centered : List Bool) (lengths : List Nat) (matrix : List (List GoStr)) :
    Option (List (List GoStr)) :=
  matrix.enum.mapM (fun p => formatCells p.2 centered lengths (p.1 == 1))

/-- Rebuild the table text: every row joined with `"|"`, bounded by pipes,
one row per line. -/
def renderMatrix (m : List (List GoStr)) : GoStr :=
  m.foldl (fun acc row => acc ++ ('|' :: ((str "|").intercalate row ++ str "|\n"))) []

/-- Reflow one table block already split into its (nonempty) lines. -/
def reflowLines (lines : List GoStr) : Option GoStr :=
  let matrix := lines.map parseLine
  let centered := centeredOf matrix
  match computeLengths matrix with
  | none => none
  | some lengths =>
    match formatMatrix centered lengths matrix with
    | none => none
    | some out => some (renderMatrix out)

/-- Index of the first occurrence of `pat` in `s` (Go's `strings.Index`). -/
def strIndexOf? : GoStr → GoStr → Option Nat
  | [], pat => if pat.isPrefixOf ([] : GoStr) then some 0 else none
  | c :: rest, pat =>
    if pat.isPrefixOf (c :: rest) then some 0
    else (strIndexOf? rest pat).map (· + 1)

/-- Go's `strings.Replace(s, old, new, 1)`: replace the first occurrence of
`old`, if any. -/
def goReplace1 (s old new : GoStr) : GoStr :=
  match strIndexOf? s old with
  | none => s
  | some i => s.take i ++ new ++ s.drop (i + old.length)

/-- One iteration of the table loop of `Prettify`: split the raw block on
newlines (dropping empties), skip it when it has fewer than 3 lines, otherwise
reflow it and replace its first literal occurrence in the running text. -/
def prettifyBlock (s raw : GoStr) : Option GoStr :=
  let lines := goFields (· = '\n') raw
  if lines.length < 3 then some s
  else (reflowLines lines).map (fun newTable => goReplace1 s raw newTable)

/-- The regex `\n{2,}` replaced by `"\n\n"`: every maximal run of `k ≥ 2`
newlines collapses to exactly two; `n` counts the newlines immediately
preceding the cursor. -/
def collapseNLGo : GoStr → Nat → GoStr
  | [], _ => []
  | c :: rest, n =>
    if c = '\n' then (if n < 2 then ['\n'] else []) ++ collapseNLGo rest (n + 1)
    else c :: collapseNLGo rest 0

/-- Document-level newline normalization of `Prettify`. -/
def collapseNL (s : GoStr) : GoStr := collapseNLGo s 0

/-- Document-level cleanup of `Prettify`: collapse blank-line runs, trim
spaces and newlines at both ends, append exactly one final newline. -/
def cleanup (s : GoStr) : GoStr := goTrim (collapseNL s) (str " \n") ++ str "\n"

/-- `tabularTemplate.Prettify` from `docs.go`.  `none` models a Go panic
(out-of-range indexing while processing an irregular table). -/
def Prettify (s : GoStr) : Option GoStr :=
  ((findTables s).foldlM prettifyBlock s).map cleanup

/-! ## Theorems -/

/-! ### Supporting lemmas: the width computation and cell formatting -/

theorem formatSepCell_length (b : Bool) (L : Nat) : (formatSepCell b L).length = L + 2 := by
  cases b <;>
    simp only [formatSepCell, goMax, Bool.false_eq_true, if_false, if_true,
      List.length_replicate, List.length_cons, List.length_append, List.length_nil] <;>
    split_ifs <;> omega

theorem formatCell_length (b : Bool) (L : Nat) (cell : GoStr) (h : cell.length ≤ L) :
    (formatCell b L cell).length = L + 2 := by
  cases b <;>
    simp only [formatCell, goMax, Bool.false_eq_true, if_false, if_true,
      List.length_append, List.length_replicate, List.length_cons, List.length_nil,
      apply_ite List.length] <;>
    split_ifs <;> omega

theorem formatCells_some : ∀ (cs : List GoStr) (bs : List Bool) (Ls : List Nat) (isSep : Bool)
    (out : List GoStr), formatCells cs bs Ls isSep = some out →
    out.length = cs.length ∧ cs.length ≤ bs.length ∧ cs.length ≤ Ls.length
  | [], _, _, _, out => by
    intro h
    simp only [formatCells, Option.some.injEq] at h
    simp [← h]
  | _ :: _, [], _, _, out => by simp [formatCells]
  | _ :: _, _ :: _, [], _, out => by simp [formatCells]
  | c :: cs, b :: bs, L :: Ls, isSep, out => by
    intro h
    simp only [formatCells, Option.map_eq_some'] at h
    obtain ⟨r, hr, hout⟩ := h
    obtain ⟨h1, h2, h3⟩ := formatCells_some cs bs Ls isSep r hr
    subst hout
    simp only [List.length_cons]
    omega

theorem formatCells_getElem : ∀ (cs : List GoStr) (bs : List Bool) (Ls : List Nat) (isSep : Bool)
    (out : List GoStr), formatCells cs bs Ls isSep = some out →
    ∀ (j : Nat) (c : GoStr) (b : Bool) (L : Nat), cs[j]? = some c → bs[j]? = some b →
      Ls[j]? = some L →
      out[j]? = some (if isSep then formatSepCell b L else formatCell b L c)
  | [], _, _, _, out => by
    intro h j c b L hc
    simp at hc
  | _ :: _, [], _, _, out => by simp [formatCells]
  | _ :: _, _ :: _, [], _, out => by simp [formatCells]
  | c0 :: cs, b0 :: bs, L0 :: Ls, isSep, out => by
    intro h j c b L hc hb hL
    simp only [formatCells, Option.map_eq_some'] at h
    obtain ⟨r, hr, hout⟩ := h
    subst hout
    match j with
    | 0 =>
      simp only [List.getElem?_cons_zero, Option.some.injEq] at hc hb hL ⊢
      subst hc; subst hb; subst hL; rfl
    | j + 1 =>
      simp only [List.getElem?_cons_succ] at hc hb hL ⊢
      exact formatCells_getElem cs bs Ls isSep r hr j c b L hc hb hL

theorem bumpRow_some : ∀ (acc : List Nat) (row : List GoStr) (acc' : List Nat),
    bumpRow acc row = some acc' → acc'.length = acc.length ∧ row.length ≤ acc.length
  | acc, [], acc' => by
    intro h
    simp only [bumpRow, Option.some.injEq] at h
    simp [← h]
  | [], _ :: _, acc' => by simp [bumpRow]
  | L :: ls, c :: cs, acc' => by
    intro h
    simp only [bumpRow, Option.map_eq_some'] at h
    obtain ⟨r, hr, hacc⟩ := h
    obtain ⟨h1, h2⟩ := bumpRow_some ls cs r hr
    subst hacc
    simp only [List.length_cons]
    omega

theorem bumpRow_getElem : ∀ (acc : List Nat) (row : List GoStr) (acc' : List Nat),
    bumpRow acc row = some acc' → ∀ (j : Nat) (u : Nat), acc[j]? = some u →
    acc'[j]? = some (match row[j]? with
      | some c => if c.length > u then c.length else u
      | none => u)
  | acc, [], acc' => by
    intro h j u hu
    simp only [bumpRow, Option.some.injEq] at h
    subst h
    simp [hu]
  | [], _ :: _, acc' => by simp [bumpRow]
  | L :: ls, c :: cs, acc' => by
    intro h j u hu
    simp only [bumpRow, Option.map_eq_some'] at h
    obtain ⟨r, hr, hacc⟩ := h
    subst hacc
    match j with
    | 0 =>
      simp only [List.getElem?_cons_zero, Option.some.injEq] at hu ⊢
      subst hu
      rfl
    | j + 1 =>
      simp only [List.getElem?_cons_succ] at hu ⊢
      exact bumpRow_getElem ls cs r hr j u hu

theorem lengthsFold_spec : ∀ (rows : List (Nat × List GoStr)) (init res : List Nat),
    rows.foldlM (fun acc p => if p.1 = 1 then some acc else bumpRow acc p.2) init = some res →
    res.length = init.length ∧ ∀ (j : Nat) (u : Nat), init[j]? = some u →
      res[j]? = some (colAcc j rows u)
  | [], init, res => by
    intro h
    simp only [List.foldlM_nil, pure, Option.some.injEq] at h
    subst h
    exact ⟨rfl, fun j u hu => by simpa [colAcc] using hu⟩
  | p :: rest, init, res => by
    intro h
    rw [List.foldlM_cons] at h
    by_cases hp : p.1 = 1
    · rw [if_pos hp] at h
      simp only [Option.bind_eq_bind, Option.some_bind] at h
      obtain ⟨h1, h2⟩ := lengthsFold_spec rest init res h
      refine ⟨h1, fun j u hu => ?_⟩
      rw [h2 j u hu]
      simp [colAcc, hp]
    · rw [if_neg hp] at h
      rcases hb : bumpRow init p.2 with _ | mid
      · rw [hb] at h; simp at h
      · rw [hb] at h
        simp only [Option.bind_eq_bind, Option.some_bind] at h
        obtain ⟨h1, h2⟩ := lengthsFold_spec rest mid res h
        obtain ⟨hl, _⟩ := bumpRow_some init p.2 mid hb
        refine ⟨by omega, fun j u hu => ?_⟩
        have hmid := bumpRow_getElem init p.2 mid hb j u hu
        rw [h2 j _ hmid]
        simp [colAcc, hp]

theorem le_colAcc (j : Nat) : ∀ (rows : List (Nat × List GoStr)) (u : Nat),
    u ≤ colAcc j rows u
  | [], u => Nat.le_refl u
  | p :: rest, u => by
    have step : u ≤ (if p.1 = 1 then u else
        match p.2[j]? with
        | some c => if c.length > u then c.length else u
        | none => u) := by
      split_ifs with h1
      · exact Nat.le_refl u
      · rcases p.2[j]? with _ | c
        · exact Nat.le_refl u
        · simp only
          split_ifs <;> omega
    exact Nat.le_trans step (le_colAcc j rest _)

theorem cell_le_colAcc (j : Nat) : ∀ (rows : List (Nat × List GoStr)) (u : Nat)
    (p : Nat × List GoStr), p ∈ rows → p.1 ≠ 1 → ∀ (c : GoStr), p.2[j]? = some c →
    c.length ≤ colAcc j rows u
  | [], u, p => by intro h; simp at h
  | q :: rest, u, p => by
    intro hmem hp c hc
    rcases List.mem_cons.mp hmem with heq | htail
    · subst heq
      have step : c.length ≤ (if p.1 = 1 then u else
          match p.2[j]? with
          | some c => if c.length > u then c.length else u
          | none => u) := by
        rw [if_neg hp, hc]
        simp only
        split_ifs <;> omega
      exact Nat.le_trans step (le_colAcc j rest _)
    · exact cell_le_colAcc j rest _ p htail hp c hc

theorem colAcc_attained (j : Nat) : ∀ (rows : List (Nat × List GoStr)) (u : Nat),
    colAcc j rows u = u ∨ ∃ p ∈ rows, p.1 ≠ 1 ∧ ∃ c, p.2[j]? = some c ∧
      colAcc j rows u = c.length
  | [], u => Or.inl rfl
  | q :: rest, u => by
    have hrec := colAcc_attained j rest (if q.1 = 1 then u else
      match q.2[j]? with
      | some c => if c.length > u then c.length else u
      | none => u)
    have hunfold : colAcc j (q :: rest) u = colAcc j rest (if q.1 = 1 then u else
      match q.2[j]? with
      | some c => if c.length > u then c.length else u
      | none => u) := rfl
    rcases hrec with heq | ⟨p, hmem, hp, c, hc, hval⟩
    · rw [hunfold, heq]
      by_cases h1 : q.1 = 1
      · rw [if_pos h1]; exact Or.inl rfl
      · rw [if_neg h1]
        rcases hq : q.2[j]? with _ | c
        · exact Or.inl rfl
        · simp only
          split_ifs with hgt
          · exact Or.inr ⟨q, List.mem_cons_self q rest, h1, c, hq, rfl⟩
          · exact Or.inl rfl
    · exact Or.inr ⟨p, List.mem_cons_of_mem q hmem, hp, c, hc, hunfold ▸ hval⟩

theorem computeLengths_spec (matrix : List (List GoStr)) (lengths : List Nat)
    (h : computeLengths matrix = some lengths) :
    lengths.length = (matrix.headD []).length ∧
    ∀ j : Nat, j < (matrix.headD []).length → lengths[j]? = some (colAcc j matrix.enum 0) := by
  obtain ⟨h1, h2⟩ := lengthsFold_spec matrix.enum _ lengths h
  rw [List.length_replicate] at h1
  refine ⟨h1, fun j hj => ?_⟩
  exact h2 j 0 (by rw [List.getElem?_replicate, if_pos hj])

theorem mapM_opt_length {α β : Type} (f : α → Option β) : ∀ (l : List α) (out : List β),
    l.mapM f = some out → out.length = l.length
  | [], out => by
    intro h
    simp only [List.mapM_nil, pure, Option.some.injEq] at h
    simp [← h]
  | a :: l, out => by
    intro h
    rw [List.mapM_cons] at h
    rcases hfa : f a with _ | b
    · rw [hfa] at h
      simp at h
    · rw [hfa] at h
      rcases hfl : l.mapM f with _ | r
      · rw [hfl] at h
        simp at h
      · rw [hfl] at h
        simp only [Option.bind_eq_bind, Option.some_bind, pure, Option.some.injEq] at h
        subst h
        simp [mapM_opt_length f l r hfl]

theorem mapM_opt_getElem {α β : Type} (f : α → Option β) : ∀ (l : List α) (out : List β),
    l.mapM f = some out → ∀ (i : Nat) (a : α), l[i]? = some a →
    ∃ b, out[i]? = some b ∧ f a = some b
  | [], out => by
    intro h i a ha
    simp at ha
  | a0 :: l, out => by
    intro h i a ha
    rw [List.mapM_cons] at h
    rcases hfa : f a0 with _ | b0
    · rw [hfa] at h
      simp at h
    · rw [hfa] at h
      rcases hfl : l.mapM f with _ | r
      · rw [hfl] at h
        simp at h
      · rw [hfl] at h
        simp only [Option.bind_eq_bind, Option.some_bind, pure, Option.some.injEq] at h
        subst h
        match i with
        | 0 =>
          simp only [List.getElem?_cons_zero, Option.some.injEq] at ha ⊢
          subst ha
          exact ⟨b0, rfl, hfa⟩
        | i + 1 =>
          simp only [List.getElem?_cons_succ] at ha ⊢
          exact mapM_opt_getElem f l r hfl i a ha

/-- C1: for every table block whose width computation and cell formatting
succeed, every formatted cell of every row at column `j` — header and body
cells as well as the regenerated separator cell — has character count exactly
`L + 2`, where `L` is the column width produced by `computeLengths`; and `L`
is precisely the maximum Unicode code-point count over the header and body
cells of column `j` (every such cell is `≤ L`, and `L` is `0` or attained). -/
theorem C1_width_invariant (matrix : List (List GoStr)) (centered : List Bool)
    (lengths : List Nat) (out : List (List GoStr))
    (hL : computeLengths matrix = some lengths)
    (hF : formatMatrix centered lengths matrix = some out) :
    ∀ (i : Nat) (row : List GoStr), out[i]? = some row →
    ∀ (j : Nat) (cell : GoStr), row[j]? = some cell →
      ∃ L : Nat, lengths[j]? = some L ∧ cell.length = L + 2 ∧
        (∀ (n : Nat) (r : List GoStr) (c : GoStr), matrix[n]? = some r → n ≠ 1 →
          r[j]? = some c → c.length ≤ L) ∧
        (L = 0 ∨ ∃ (n : Nat) (r : List GoStr) (c : GoStr), matrix[n]? = some r ∧ n ≠ 1 ∧
          r[j]? = some c ∧ c.length = L) := by
  intro i row hrow j cell hcell
  -- recover the matrix row behind output row `i`
  have hilen : i < out.length := (List.getElem?_eq_some_iff.mp hrow).1
  have hout_len : out.length = matrix.enum.length := mapM_opt_length _ _ _ hF
  have henum_len : matrix.enum.length = matrix.length := List.enum_length
  have henum : matrix.enum[i]? = (matrix[i]?).map fun a => (i, a) := List.getElem?_enum _ _
  rcases hmrow : matrix[i]? with _ | mrow
  · exfalso
    have : matrix.length ≤ i := List.getElem?_eq_none_iff.mp hmrow
    omega
  · rw [hmrow] at henum
    simp only [Option.map_some'] at henum
    obtain ⟨orow, horow, hfc⟩ := mapM_opt_getElem _ _ _ hF i (i, mrow) henum
    rw [hrow] at horow
    injection horow with horow'
    rw [← horow'] at hfc
    -- recover the input cell, alignment and width behind output cell `j`
    obtain ⟨hlen_row, hlen_bs, hlen_Ls⟩ := formatCells_some _ _ _ _ _ hfc
    have hjlen : j < row.length := (List.getElem?_eq_some_iff.mp hcell).1
    have hjc : j < mrow.length := by
      simp only at hlen_row
      omega
    rcases hc : mrow[j]? with _ | c
    · rw [List.getElem?_eq_none_iff] at hc; omega
    rcases hb : centered[j]? with _ | b
    · rw [List.getElem?_eq_none_iff] at hb; omega
    rcases hLj : lengths[j]? with _ | L
    · rw [List.getElem?_eq_none_iff] at hLj; omega
    have hcell' := formatCells_getElem _ _ _ _ _ hfc j c b L hc hb hLj
    rw [hcell] at hcell'
    have hcell_eq : cell = if (i == 1) then formatSepCell b L else formatCell b L c :=
      Option.some_injective _ hcell'
    -- the computed width is the column fold, bounding every non-separator cell
    have hhd : lengths.length = (matrix.headD []).length ∧ ∀ jj : Nat,
        jj < (matrix.headD []).length → lengths[jj]? = some (colAcc jj matrix.enum 0) :=
      computeLengths_spec matrix lengths hL
    have hjhd : j < (matrix.headD []).length := by
      have : j < lengths.length := (List.getElem?_eq_some_iff.mp hLj).1
      omega
    have hLval : L = colAcc j matrix.enum 0 := by
      have := hhd.2 j hjhd
      rw [hLj] at this
      injection this
    have hbound : ∀ (n : Nat) (r : List GoStr) (c' : GoStr), matrix[n]? = some r → n ≠ 1 →
        r[j]? = some c' → c'.length ≤ L := by
      intro n r c' hn hn1 hc'
      rw [hLval]
      exact cell_le_colAcc j matrix.enum 0 (n, r)
        (List.mem_enum_iff_getElem?.mpr (by simpa using hn)) (by simpa using hn1) c' hc'
    have hatt : L = 0 ∨ ∃ (n : Nat) (r : List GoStr) (c' : GoStr), matrix[n]? = some r ∧
        n ≠ 1 ∧ r[j]? = some c' ∧ c'.length = L := by
      rcases colAcc_attained j matrix.enum 0 with h0 | ⟨p, hmem, hp1, c', hc', hval⟩
      · exact Or.inl (hLval.trans h0)
      · refine Or.inr ⟨p.1, p.2, c', ?_, (by simpa using hp1), hc', by omega⟩
        have := List.mem_enum_iff_getElem?.mp hmem
        simpa using this
    refine ⟨L, rfl, ?_, hbound, hatt⟩
    -- the separator cell and the padded cells all have width `L + 2`
    rw [hcell_eq]
    by_cases hi1 : i = 1
    · simp only [hi1, beq_self_eq_true, if_true]
      exact formatSepCell_length b L
    · have : (i == 1) = false := by simp [hi1]
      rw [this]
      simp only [Bool.false_eq_true, if_false]
      exact formatCell_length b L c (hbound i mrow c hmrow hi1 hc)

/-- Witness for C1 at a concrete 2-column table (one left, one centered). -/
theorem C1_width_invariant_witness :
    computeLengths [[str "a", str "bb"], [str "-", str ":-:"], [str "cc", str "b"]] =
      some [2, 2] ∧
    formatMatrix [false, true] [2, 2]
        [[str "a", str "bb"], [str "-", str ":-:"], [str "cc", str "b"]] =
      some [[str " a  ", str " bb "], [str "----", str ":--:"], [str " cc ", str "  b "]] ∧
    (∀ (i : Nat) (row : List GoStr),
      [[str " a  ", str " bb "], [str "----", str ":--:"], [str " cc ", str "  b "]][i]? =
        some row →
    ∀ (j : Nat) (cell : GoStr), row[j]? = some cell →
      ∃ L : Nat, ([2, 2] : List Nat)[j]? = some L ∧ cell.length = L + 2 ∧
        (∀ (n : Nat) (r : List GoStr) (c : GoStr),
          [[str "a", str "bb"], [str "-", str ":-:"], [str "cc", str "b"]][n]? = some r →
          n ≠ 1 → r[j]? = some c → c.length ≤ L) ∧
        (L = 0 ∨ ∃ (n : Nat) (r : List GoStr) (c : GoStr),
          [[str "a", str "bb"], [str "-", str ":-:"], [str "cc", str "b"]][n]? = some r ∧
          n ≠ 1 ∧ r[j]? = some c ∧ c.length = L)) :=
  ⟨by decide, by decide,
    C1_width_invariant _ [false, true] _ _ (by decide) (by decide)⟩

/-- C9: `PrepareMultilineString` is total over every input string: it is
exactly the composition replace-newlines-by-spaces, trim surrounding
whitespace, strip trailing characters from the set dot/CR/LF/TAB; the empty
input yields the empty output, and the input "Line one.\nLine two.\n\n\n"
yields exactly "Line one. Line two". -/
theorem C9_prepare_multiline_string :
    PrepareMultilineString [] = [] ∧
    PrepareMultilineString (str "Line one.\nLine two.\n\n\n") = str "Line one. Line two" ∧
    ∀ s, PrepareMultilineString s =
      goTrimRight (goTrimSpace (replaceNLBySpace s)) (str ".\r\n\t") :=
  ⟨rfl, by decide, fun _ => rfl⟩

/-- C2 (code behavior at the failing input): on a matched table block whose
body row has more cells than the header row, `Prettify` does not skip the
block — it hits an out-of-range index (a Go runtime panic, modelled `none`). -/
theorem C2_prettify_panics_on_extra_cells :
    Prettify (str "|a|b|\n|-|-|\n|c|d|e|\n") = none := by decide

/-- C3 (counterexample): a well-formed block with a header row and a separator
row but zero body rows is *not* reflowed: `Prettify` leaves it untouched
(claimed header-only reflow shown unequal). -/
theorem C3_counterexample :
    Prettify (str "|abc|b|\n|-|-|") = some (str "|abc|b|\n|-|-|\n") ∧
    Prettify (str "|abc|b|\n|-|-|") ≠ some (str "| abc | b |\n|-----|---|\n") :=
  ⟨by decide, by decide⟩

/-- C3 (amended): a matched block with fewer than 3 nonempty lines — in
particular a block with a header and separator but zero body rows — is
skipped unchanged by the table loop of `Prettify`. -/
theorem C3_amended_zero_body_rows_skipped (s raw : GoStr)
    (h : (goFields (· = '\n') raw).length < 3) :
    prettifyBlock s raw = some s := by
  unfold prettifyBlock
  rw [if_pos h]

/-- Witness for the amended C3 at a concrete header+separator block. -/
theorem C3_amended_zero_body_rows_skipped_witness :
    (goFields (· = '\n') (str "|a|\n|-|")).length < 3 ∧
    prettifyBlock (str "x") (str "|a|\n|-|") = some (str "x") :=
  ⟨by decide, C3_amended_zero_body_rows_skipped (str "x") (str "|a|\n|-|") (by decide)⟩

/-- C5 (counterexample): in a centered column of width 2, the body cell "a"
has odd leftover space 1, and `Prettify` renders it with *two* spaces on the
left and one on the right — the extra space goes to the left, not the right. -/
theorem C5_counterexample :
    Prettify (str "|ab|\n|:-:|\n|a|") = some (str "| ab |\n|:--:|\n|  a |\n") ∧
    Prettify (str "|ab|\n|:-:|\n|a|") ≠ some (str "| ab |\n|:--:|\n| a  |\n") :=
  ⟨by decide, by decide⟩

/-! ### C5: the centered padding tie-break -/

theorem formatCell_centered (L : Nat) (cell : GoStr) :
    formatCell true L cell =
      List.replicate (goMax 1 ((L - cell.length) / 2)) ' ' ++
      (if goMax 1 ((L - cell.length) / 2) + cell.length +
          goMax 1 (L - cell.length - (goMax 1 ((L - cell.length) / 2) - 1)) ≤ L + 1
        then [' '] else []) ++
      cell ++
      List.replicate (goMax 1 (L - cell.length - (goMax 1 ((L - cell.length) / 2) - 1))) ' ' :=
  rfl

/-- C5 (amended): in a centered column of width `L`, a non-separator cell of
code-point count `w ≤ L` with odd leftover `d = L - w` is padded with the
extra space on the *right* only when `d ≥ 3` (left pad `(d+1)/2`, right pad
`(d+1)/2 + 1`); when `d = 1` the extra space lands on the *left* (left pad 2,
right pad 1), so the left pad exceeds the right pad there. -/
theorem C5_amended_centered_odd_leftover (L : Nat) (cell : GoStr)
    (hw : cell.length ≤ L) (hodd : (L - cell.length) % 2 = 1) :
    (L - cell.length = 1 →
      formatCell true L cell = [' ', ' '] ++ cell ++ [' ']) ∧
    (3 ≤ L - cell.length →
      formatCell true L cell =
        List.replicate ((L - cell.length + 1) / 2) ' ' ++ cell ++
        List.replicate ((L - cell.length + 1) / 2 + 1) ' ') := by
  constructor
  · intro h1
    rw [formatCell_centered]
    have e1 : goMax 1 ((L - cell.length) / 2) = 1 := by
      unfold goMax; split <;> omega
    rw [e1]
    have e2 : goMax 1 (L - cell.length - (1 - 1)) = 1 := by
      unfold goMax; split <;> omega
    rw [e2, if_pos (by omega)]
    simp [List.replicate]
  · intro h3
    rw [formatCell_centered]
    have e1 : goMax 1 ((L - cell.length) / 2) = (L - cell.length) / 2 := by
      unfold goMax; split <;> omega
    rw [e1]
    have e2 : goMax 1 (L - cell.length - ((L - cell.length) / 2 - 1)) =
        (L - cell.length + 1) / 2 + 1 := by
      unfold goMax; split <;> omega
    rw [e2, if_pos (by omega)]
    have e3 : (L - cell.length + 1) / 2 = (L - cell.length) / 2 + 1 := by omega
    rw [e3, ← List.replicate_succ']

/-- Witness for the amended C5 at `L = 5` with the cell `"ab"` (leftover 3). -/
theorem C5_amended_centered_odd_leftover_witness :
    ((5 : Nat) - (str "ab").length = 1 →
      formatCell true 5 (str "ab") = [' ', ' '] ++ str "ab" ++ [' ']) ∧
    (3 ≤ (5 : Nat) - (str "ab").length →
      formatCell true 5 (str "ab") =
        List.replicate (((5 : Nat) - (str "ab").length + 1) / 2) ' ' ++ str "ab" ++
        List.replicate (((5 : Nat) - (str "ab").length + 1) / 2 + 1) ' ') :=
  C5_amended_centered_odd_leftover 5 (str "ab") (by decide) (by decide)

/-! ### C6: idempotence on aligned documents -/

theorem strIndexOf?_found : ∀ (s pat : GoStr) (i : Nat), strIndexOf? s pat = some i →
    pat.isPrefixOf (s.drop i) = true
  | [], pat, i => by
    intro h
    simp only [strIndexOf?] at h
    split_ifs at h with hp
    · injection h with h0
      subst h0
      simpa using hp
  | c :: rest, pat, i => by
    intro h
    simp only [strIndexOf?] at h
    split_ifs at h with hp
    · injection h with h0
      subst h0
      simpa using hp
    · rcases hr : strIndexOf? rest pat with _ | j
      · rw [hr] at h
        simp at h
      · rw [hr] at h
        simp only [Option.map_some', Option.some.injEq] at h
        subst h
        simpa using strIndexOf?_found rest pat j hr

theorem goReplace1_self (s old : GoStr) : goReplace1 s old old = s := by
  unfold goReplace1
  rcases h : strIndexOf? s old with _ | i
  · rfl
  · have hpre : old <+: s.drop i := by
      have hfound := strIndexOf?_found s old i h
      exact List.isPrefixOf_iff_prefix.mp hfound
    obtain ⟨t, ht⟩ := hpre
    have hdd : (s.drop i).drop old.length = s.drop (i + old.length) := by
      rw [List.drop_drop]
    calc s.take i ++ old ++ s.drop (i + old.length)
        = s.take i ++ old ++ t := by
          congr 1
          rw [← hdd, ← ht, List.drop_left]
      _ = s.take i ++ (old ++ t) := by rw [List.append_assoc]
      _ = s.take i ++ s.drop i := by rw [ht]
      _ = s := List.take_append_drop i s

theorem prettifyFold_fixed : ∀ (raws : List GoStr) (t : GoStr),
    (∀ raw ∈ raws, (goFields (· = '\n') raw).length < 3 ∨
      reflowLines (goFields (· = '\n') raw) = some raw) →
    raws.foldlM prettifyBlock t = some t
  | [], t, _ => by
    rw [List.foldlM_nil]
    rfl
  | raw :: rest, t, h => by
    rw [List.foldlM_cons]
    have hhead : prettifyBlock t raw = some t := by
      have hr := h raw (List.mem_cons_self raw rest)
      unfold prettifyBlock
      by_cases hlt : (goFields (· = '\n') raw).length < 3
      · rw [if_pos hlt]
      · rw [if_neg hlt]
        rcases hr with hlt' | hrf
        · exact absurd hlt' hlt
        · rw [hrf, Option.map_some', goReplace1_self]
    rw [hhead]
    simp only [Option.bind_eq_bind, Option.some_bind]
    exact prettifyFold_fixed rest t (fun r hr => h r (List.mem_cons_of_mem raw hr))

/-- C6: on a text all of whose discovered table blocks already reflow to
themselves (or are too short and get skipped) and on which the document-level
cleanup is the identity — i.e. a text whose tables are well-formed and already
aligned by a previous `Prettify` pass — `Prettify` is a fixed point, and hence
applying it twice equals applying it once. -/
theorem C6_prettify_idempotent (t : GoStr)
    (h1 : ∀ raw ∈ findTables t, (goFields (· = '\n') raw).length < 3 ∨
      reflowLines (goFields (· = '\n') raw) = some raw)
    (h2 : cleanup t = t) :
    Prettify t = some t ∧ (Prettify t).bind Prettify = Prettify t := by
  have hP : Prettify t = some t := by
    unfold Prettify
    rw [prettifyFold_fixed (findTables t) t h1, Option.map_some', h2]
  exact ⟨hP, by rw [hP]; exact hP⟩

/-- Witness for C6 at a concrete already-aligned one-column table. -/
theorem C6_prettify_idempotent_witness :
    (∀ raw ∈ findTables (str "| a |\n|---|\n| b |\n"),
      (goFields (· = '\n') raw).length < 3 ∨
      reflowLines (goFields (· = '\n') raw) = some raw) ∧
    cleanup (str "| a |\n|---|\n| b |\n") = str "| a |\n|---|\n| b |\n" ∧
    Prettify (str "| a |\n|---|\n| b |\n") = some (str "| a |\n|---|\n| b |\n") ∧
    (Prettify (str "| a |\n|---|\n| b |\n")).bind Prettify =
      Prettify (str "| a |\n|---|\n| b |\n") :=
  ⟨by decide, by decide,
    (C6_prettify_idempotent _ (by decide) (by decide)).1,
    (C6_prettify_idempotent _ (by decide) (by decide)).2⟩

/-! ### C4: hidden nodes in the two tree traversals -/

theorem prepareCommands_hidden_skip (c : Command) (rest : List Command) (level : Nat)
    (hc : c.hidden = true) :
    prepareCommands (c :: rest) level = prepareCommands rest level := by
  rcases c with ⟨n, als, u, ut, au, de, cat, hid, fls, subs⟩
  simp only [Command.hidden] at hc
  simp only [prepareCommands, hc, if_true]

theorem PrepareCommands_names : ∀ (cmds : List Command) (appPath parent : GoStr) (lvl : Nat),
    (PrepareCommands cmds appPath parent lvl).map cliTabularCommandTemplate.Name =
      cmds.map (fun k => goTrimSpace (parent ++ str " " ++ k.name))
  | [], _, _, _ => by simp [PrepareCommands]
  | Command.mk n als u ut au de cat hid fls subs :: rest, appPath, parent, lvl => by
    simp only [PrepareCommands, List.map_cons, cliTabularCommandTemplate.Name]
    rw [PrepareCommands_names rest appPath parent lvl]
    rfl

/-- C4 (counterexample): `PrepareCommands` applies no hidden filter below the
top level: a hidden subcommand `b` of a visible command `a` yields a rendered
tabular record with qualified name `"a b"` — the hidden node appears in the
output, contradicting the claim. -/
theorem C4_counterexample :
    (PrepareCommands [Command.mk (str "a") [] [] [] [] [] [] false []
        [Command.mk (str "b") [] [] [] [] [] [] true [] []]] (str "app") [] 0).map
      (fun t => t.SubCommands.map cliTabularCommandTemplate.Name) = [[str "a b"]] ∧
    (Command.mk (str "b") [] [] [] [] [] [] true [] []).hidden = true := by
  constructor
  · simp only [PrepareCommands, List.map_cons, List.map_nil,
      cliTabularCommandTemplate.SubCommands, cliTabularCommandTemplate.Name]
    decide
  · rfl

/-- C4 (amended): in the flowing traversal `prepareCommands` a hidden node is
dropped together with its *entire subtree* (its visible descendants do not
appear either); in the tabular traversal `PrepareCommands` no hidden filter is
applied at all — every listed command, hidden or not, produces a record whose
qualified name is the trimmed space-join of the parent-chain name (which
itself joins *all* ancestor segments of the recursion) and its own name. -/
theorem C4_amended_hidden_handling (c : Command) (rest : List Command) (level : Nat)
    (cmds : List Command) (appPath parent : GoStr) (lvl : Nat)
    (hc : c.hidden = true) :
    prepareCommands (c :: rest) level = prepareCommands rest level ∧
    (PrepareCommands cmds appPath parent lvl).map cliTabularCommandTemplate.Name =
      cmds.map (fun k => goTrimSpace (parent ++ str " " ++ k.name)) :=
  ⟨prepareCommands_hidden_skip c rest level hc,
    PrepareCommands_names cmds appPath parent lvl⟩

/-- Witness for the amended C4 at a concrete hidden command. -/
theorem C4_amended_hidden_handling_witness :
    prepareCommands [Command.mk (str "b") [] [] [] [] [] [] true [] []] 0 =
      prepareCommands [] 0 ∧
    (PrepareCommands [Command.mk (str "b") [] [] [] [] [] [] true [] []]
        (str "app") [] 0).map cliTabularCommandTemplate.Name =
      [Command.mk (str "b") [] [] [] [] [] [] true [] []].map
        (fun k => goTrimSpace ([] ++ str " " ++ k.name)) :=
  C4_amended_hidden_handling (Command.mk (str "b") [] [] [] [] [] [] true [] []) [] 0
    [Command.mk (str "b") [] [] [] [] [] [] true [] []] (str "app") [] 0 rfl

/-! ### C7/C8/C10: flag-name rendering -/

theorem utf8Len_append (a b : GoStr) : utf8Len (a ++ b) = utf8Len a + utf8Len b := by
  simp [utf8Len]

theorem utf8Len_pos (s : GoStr) (h : s ≠ []) : 0 < utf8Len s := by
  rcases s with _ | ⟨c, rest⟩
  · exact absurd rfl h
  · have := Char.utf8Size_pos c
    simp only [utf8Len, List.map_cons, List.sum_cons]
    omega

theorem dashSpelled_ne_nil (s : GoStr) : dashSpelled s ≠ [] := by
  show (if utf8Len (goTrimSpace s) > 1 then str "--" ++ goTrimSpace s
    else str "-" ++ goTrimSpace s) ≠ []
  split_ifs <;> simp [str]

theorem flagNameStep_of_gt (sep opener m s : GoStr) (h : utf8Len m > utf8Len opener) :
    flagNameStep sep opener m s = m ++ sep ++ dashSpelled s := by
  show (if utf8Len (goTrimSpace s) > 1
      then (if utf8Len m > utf8Len opener then m ++ sep else m) ++ str "--" ++ goTrimSpace s
      else (if utf8Len m > utf8Len opener then m ++ sep else m) ++ str "-" ++ goTrimSpace s) =
    m ++ sep ++ (if utf8Len (goTrimSpace s) > 1 then str "--" ++ goTrimSpace s
      else str "-" ++ goTrimSpace s)
  rw [if_pos h]
  split_ifs <;> simp [List.append_assoc]

theorem flagNameStep_opener (sep opener s : GoStr) :
    flagNameStep sep opener opener s = opener ++ dashSpelled s := by
  show (if utf8Len (goTrimSpace s) > 1
      then (if utf8Len opener > utf8Len opener then opener ++ sep else opener) ++
        str "--" ++ goTrimSpace s
      else (if utf8Len opener > utf8Len opener then opener ++ sep else opener) ++
        str "-" ++ goTrimSpace s) =
    opener ++ (if utf8Len (goTrimSpace s) > 1 then str "--" ++ goTrimSpace s
      else str "-" ++ goTrimSpace s)
  rw [if_neg (lt_irrefl (utf8Len opener))]
  split_ifs <;> simp [List.append_assoc]

theorem flagNamesFold (sep opener : GoStr) : ∀ (names : List GoStr) (acc : GoStr), acc ≠ [] →
    names.foldl (flagNameStep sep opener) (opener ++ acc) =
      opener ++ acc ++ (names.map (fun s => sep ++ dashSpelled s)).flatten
  | [], acc, _ => by simp
  | s :: rest, acc, hacc => by
    rw [List.foldl_cons,
      flagNameStep_of_gt sep opener (opener ++ acc) s
        (by rw [utf8Len_append]; have := utf8Len_pos acc hacc; omega)]
    have hshape : opener ++ acc ++ sep ++ dashSpelled s =
        opener ++ (acc ++ sep ++ dashSpelled s) := by
      simp [List.append_assoc]
    rw [hshape, flagNamesFold sep opener rest (acc ++ sep ++ dashSpelled s)
      (by
        intro hnil
        exact dashSpelled_ne_nil s (List.append_eq_nil.mp hnil).2)]
    simp [List.append_assoc]

theorem prepareFlagArg_eq (sep opener closer value : GoStr) (addDetails : Bool) (fl : FlagInfo) :
    prepareFlagArg sep opener closer value addDetails fl =
      opener ++ sepJoined sep (fl.names.map dashSpelled) ++ closer ++
      (if fl.takesValue then str "=" ++ value else []) ++
      (if addDetails then flagDetails fl else []) ++ str "\n" := by
  unfold prepareFlagArg
  rcases hn : fl.names with _ | ⟨s, rest⟩
  · simp only [List.foldl_nil, List.map_nil, sepJoined, List.append_nil]
    split_ifs <;> simp [List.append_assoc]
  · rw [List.foldl_cons, flagNameStep_opener,
      flagNamesFold sep opener rest (dashSpelled s) (dashSpelled_ne_nil s)]
    simp only [List.map_cons, sepJoined, List.map_map, Function.comp]
    split_ifs <;> simp [List.append_assoc, Function.comp_def]

theorem tabFold_aliases : ∀ (names : List GoStr) (k : Nat) (f : cliTabularFlagTemplate),
    k ≠ 0 → (List.enumFrom k names).foldl tabFlagNameStep f =
      { f with Aliases := f.Aliases ++ names.map dashSpelled }
  | [], k, f, _ => by
    rcases f
    simp [List.enumFrom_nil]
  | n :: rest, k, f, hk => by
    rw [List.enumFrom_cons, List.foldl_cons]
    have hstep : tabFlagNameStep f (k, n) =
        { f with Aliases := f.Aliases ++ [dashSpelled n] } := by
      simp only [tabFlagNameStep, dashSpelled]
      rw [if_neg hk]
    rw [hstep, tabFold_aliases rest (k + 1) _ (by omega)]
    rcases f
    simp [List.append_assoc]

theorem PrepareFlags_eq (flags : List Flag) :
    PrepareFlags flags = flags.filterMap (fun f => f.docInfo.map (fun fl =>
      { Name := match fl.names with
          | [] => []
          | n :: _ => str "--" ++ goTrimSpace n,
        Aliases := fl.names.tail.map dashSpelled,
        Usage := PrepareMultilineString fl.usage,
        TakesValue := fl.takesValue,
        Default := if f.isBoolFlag then goFormatBool f.boolValue else fl.value,
        EnvVars := fl.envVars })) := by
  induction flags with
  | nil => rfl
  | cons f rest ih =>
    unfold PrepareFlags at ih ⊢
    rw [List.filterMap_cons, List.filterMap_cons]
    rcases hfd : f.docInfo with _ | fl
    · simpa [hfd] using ih
    · simp only [hfd, Option.map_some']
      rw [ih]
      congr 1
      rcases hnames : fl.names with _ | ⟨n, rest'⟩
      · rfl
      · rw [List.enum_cons, List.foldl_cons]
        have hstep0 : ∀ (f0 : cliTabularFlagTemplate),
            tabFlagNameStep f0 (0, n) = { f0 with Name := str "--" ++ goTrimSpace n } := by
          intro f0
          simp [tabFlagNameStep, dashSpelled]
        rw [hstep0, tabFold_aliases rest' 1 _ one_ne_zero]
        rfl

/-- C7 (counterexample): in the structured/tabular mode, a flag whose single
declared name is the 1-character "v" renders its canonical name as "--v" —
a 1-character name with a double dash, contradicting "zero exceptions". -/
theorem C7_counterexample :
    (PrepareFlags [Flag.mk (some (FlagInfo.mk [str "v"] [] false [] [])) false false
        false]).map cliTabularFlagTemplate.Name = [str "--v"] ∧
    (str "v").length = 1 ∧
    (PrepareFlags [Flag.mk (some (FlagInfo.mk [str "v"] [] false [] [])) false false
        false]).map cliTabularFlagTemplate.Name ≠ [str "-v"] :=
  ⟨by decide, by decide, by decide⟩

/-- C7 (amended): wherever the length rule applies — every name in the
detailed and synopsis modes of `prepareFlags`, and every alias in the
structured mode of `PrepareFlags` — a trimmed name of UTF-8 byte length 1 is
prefixed with one dash and a longer name with two dashes (`dashSpelled`);
the single exception is the structured-mode canonical name (the first
declared name), which `PrepareFlags` always renders with two dashes,
regardless of length. -/
theorem C7_amended_name_spelling :
    (∀ (sep opener closer value : GoStr) (addDetails : Bool) (fl : FlagInfo),
      prepareFlagArg sep opener closer value addDetails fl =
        opener ++ sepJoined sep (fl.names.map dashSpelled) ++ closer ++
        (if fl.takesValue then str "=" ++ value else []) ++
        (if addDetails then flagDetails fl else []) ++ str "\n") ∧
    (∀ s : GoStr, dashSpelled s =
      (if utf8Len (goTrimSpace s) > 1 then str "--" else str "-") ++ goTrimSpace s) ∧
    (∀ flags : List Flag,
      PrepareFlags flags = flags.filterMap (fun f => f.docInfo.map (fun fl =>
        { Name := match fl.names with
            | [] => []
            | n :: _ => str "--" ++ goTrimSpace n,
          Aliases := fl.names.tail.map dashSpelled,
          Usage := PrepareMultilineString fl.usage,
          TakesValue := fl.takesValue,
          Default := if f.isBoolFlag then goFormatBool f.boolValue else fl.value,
          EnvVars := fl.envVars }))) := by
  refine ⟨prepareFlagArg_eq, fun s => ?_, PrepareFlags_eq⟩
  show (if utf8Len (goTrimSpace s) > 1 then str "--" ++ goTrimSpace s
    else str "-" ++ goTrimSpace s) =
    (if utf8Len (goTrimSpace s) > 1 then str "--" else str "-") ++ goTrimSpace s
  split_ifs <;> rfl

theorem strLE_total : ∀ a b : GoStr, strLE a b = true ∨ strLE b a = true
  | [], _ => Or.inl rfl
  | _ :: _, [] => Or.inr rfl
  | a :: as, b :: bs => by
    unfold strLE
    rcases lt_trichotomy a b with h | h | h
    · left
      rw [if_pos h]
    · subst h
      simp only [if_neg (lt_irrefl a)]
      exact strLE_total as bs
    · right
      rw [if_pos h]

theorem strLE_trans : ∀ a b c : GoStr, strLE a b = true → strLE b c = true → strLE a c = true
  | [], _, _ => fun _ _ => rfl
  | _ :: _, [], _ => by
    intro h _
    simp [strLE] at h
  | _ :: _, _ :: _, [] => by
    intro _ h
    simp [strLE] at h
  | a :: as, b :: bs, c :: cs => by
    intro h1 h2
    unfold strLE at h1 h2 ⊢
    by_cases hab : a < b
    · by_cases hbc : b < c
      · rw [if_pos (lt_trans hab hbc)]
      · by_cases hcb : c < b
        · rw [if_neg hbc, if_pos hcb] at h2
          exact absurd h2 (by simp)
        · have hbceq : b = c := le_antisymm (not_lt.mp hcb) (not_lt.mp hbc)
          subst hbceq
          rw [if_pos hab]
    · by_cases hba : b < a
      · rw [if_neg hab, if_pos hba] at h1
        exact absurd h1 (by simp)
      · have habeq : a = b := le_antisymm (not_lt.mp hba) (not_lt.mp hab)
        subst habeq
        simp only [if_neg hab] at h1
        by_cases hac : a < c
        · rw [if_pos hac]
        · by_cases hca : c < a
          · rw [if_neg hac, if_pos hca] at h2
            exact absurd h2 (by simp)
          · rw [if_neg hac, if_neg hca] at h2 ⊢
            exact strLE_trans as bs cs h1 h2

theorem strLE_antisymm : ∀ a b : GoStr, strLE a b = true → strLE b a = true → a = b
  | [], [], _, _ => rfl
  | [], _ :: _, _, h2 => by simp [strLE] at h2
  | _ :: _, [], h1, _ => by simp [strLE] at h1
  | a :: as, b :: bs, h1, h2 => by
    unfold strLE at h1 h2
    by_cases hab : a < b
    · rw [if_neg (lt_asymm hab), if_pos hab] at h2
      exact absurd h2 (by simp)
    · by_cases hba : b < a
      · rw [if_neg hab, if_pos hba] at h1
        exact absurd h1 (by simp)
      · have habeq : a = b := le_antisymm (not_lt.mp hba) (not_lt.mp hab)
        subst habeq
        simp only [if_neg hab] at h1 h2
        rw [strLE_antisymm as bs h1 h2]

theorem insertStr_perm : ∀ (x : GoStr) (l : List GoStr), (insertStr x l).Perm (x :: l)
  | _, [] => List.Perm.refl _
  | x, y :: ys => by
    unfold insertStr
    split_ifs with h
    · exact List.Perm.refl _
    · exact ((insertStr_perm x ys).cons y).trans (List.Perm.swap x y ys)

theorem insertStr_sorted (x : GoStr) : ∀ (l : List GoStr),
    l.Sorted (fun a b => strLE a b = true) →
    (insertStr x l).Sorted (fun a b => strLE a b = true)
  | [], _ => by simp [insertStr]
  | y :: ys, h => by
    unfold insertStr
    rw [List.sorted_cons] at h
    split_ifs with hxy
    · rw [List.sorted_cons]
      refine ⟨fun b hb => ?_, List.sorted_cons.mpr h⟩
      rcases List.mem_cons.mp hb with rfl | hb'
      · exact hxy
      · exact strLE_trans x y b hxy (h.1 b hb')
    · rw [List.sorted_cons]
      refine ⟨fun b hb => ?_, insertStr_sorted x ys h.2⟩
      rcases List.mem_cons.mp ((insertStr_perm x ys).mem_iff.mp hb) with heq | hb'
      · rw [heq]
        rcases strLE_total x y with h' | h'
        · exact absurd h' hxy
        · exact h'
      · exact h.1 b hb'

theorem sortStrings_perm : ∀ l : List GoStr, (sortStrings l).Perm l
  | [] => List.Perm.refl _
  | x :: xs => (insertStr_perm x (sortStrings xs)).trans ((sortStrings_perm xs).cons x)

theorem sortStrings_sorted : ∀ l : List GoStr,
    (sortStrings l).Sorted (fun a b => strLE a b = true)
  | [] => List.sorted_nil
  | x :: xs => insertStr_sorted x (sortStrings xs) (sortStrings_sorted xs)

theorem sortStrings_congr_perm (l l' : List GoStr) (h : l.Perm l') :
    sortStrings l = sortStrings l' := by
  haveI : IsAntisymm GoStr (fun a b => strLE a b = true) := ⟨strLE_antisymm⟩
  exact List.eq_of_perm_of_sorted
    ((sortStrings_perm l).trans (h.trans (sortStrings_perm l').symm))
    (sortStrings_sorted l) (sortStrings_sorted l')

theorem prepareFlagsLoop_eq (flags : List Flag) (sep opener closer value : GoStr)
    (addDetails : Bool) :
    prepareFlagsLoop flags sep opener closer value addDetails =
      flags.filterMap (fun f =>
        f.docInfo.map (prepareFlagArg sep opener closer value addDetails)) := by
  induction flags with
  | nil => rfl
  | cons f rest ih =>
    rw [List.filterMap_cons]
    rcases hfd : f.docInfo with _ | fl
    · simpa [prepareFlagsLoop, hfd] using ih
    · simpa [prepareFlagsLoop, hfd] using ih

/-- C8: in detailed (prose) mode, the rendered flag strings are produced
independently per capability-bearing flag (the loop is a `filterMap` of an
independent per-flag render) and then emitted sorted lexicographically; the
emitted list is sorted, is a permutation of the independent renders, and is
invariant under permuting the flag declaration order. -/
theorem C8_detailed_flags_sorted (flags flags' : List Flag) (hperm : flags'.Perm flags) :
    prepareArgsWithValues flags =
      sortStrings (flags.filterMap (fun f => f.docInfo.map
        (prepareFlagArg (str ", ") (str "**") (str "**") (str "\"\"") true))) ∧
    (prepareArgsWithValues flags).Sorted (fun a b => strLE a b = true) ∧
    (prepareArgsWithValues flags).Perm (flags.filterMap (fun f => f.docInfo.map
      (prepareFlagArg (str ", ") (str "**") (str "**") (str "\"\"") true))) ∧
    prepareArgsWithValues flags' = prepareArgsWithValues flags := by
  refine ⟨by rw [prepareArgsWithValues, prepareFlags, prepareFlagsLoop_eq], ?_, ?_, ?_⟩
  · exact sortStrings_sorted _
  · rw [prepareArgsWithValues, prepareFlags, prepareFlagsLoop_eq]
    exact (sortStrings_perm _)
  · rw [prepareArgsWithValues, prepareArgsWithValues, prepareFlags, prepareFlags,
      prepareFlagsLoop_eq, prepareFlagsLoop_eq]
    exact sortStrings_congr_perm _ _ (hperm.filterMap _)

/-- Witness for C8 at two concrete flags declared in both orders. -/
theorem C8_detailed_flags_sorted_witness :
    ([Flag.mk (some (FlagInfo.mk [str "z"] [] false [] [])) false false false,
      Flag.mk (some (FlagInfo.mk [str "a"] [] false [] [])) false false false] : List Flag).Perm
      [Flag.mk (some (FlagInfo.mk [str "a"] [] false [] [])) false false false,
        Flag.mk (some (FlagInfo.mk [str "z"] [] false [] [])) false false false] ∧
    prepareArgsWithValues
        [Flag.mk (some (FlagInfo.mk [str "z"] [] false [] [])) false false false,
          Flag.mk (some (FlagInfo.mk [str "a"] [] false [] [])) false false false] =
      prepareArgsWithValues
        [Flag.mk (some (FlagInfo.mk [str "a"] [] false [] [])) false false false,
          Flag.mk (some (FlagInfo.mk [str "z"] [] false [] [])) false false false] :=
  ⟨by decide,
    (C8_detailed_flags_sorted
      [Flag.mk (some (FlagInfo.mk [str "a"] [] false [] [])) false false false,
        Flag.mk (some (FlagInfo.mk [str "z"] [] false [] [])) false false false]
      [Flag.mk (some (FlagInfo.mk [str "z"] [] false [] [])) false false false,
        Flag.mk (some (FlagInfo.mk [str "a"] [] false [] [])) false false false]
      (by decide)).2.2.2⟩

theorem dropWhileP_idem (p : Char → Bool) : ∀ l : List Char,
    (l.dropWhile p).dropWhile p = l.dropWhile p
  | [] => rfl
  | c :: rest => by
    by_cases h : p c = true
    · simp [List.dropWhile_cons, h, dropWhileP_idem p rest]
    · simp [List.dropWhile_cons, h]

theorem trimRightP_idem (p : Char → Bool) (s : GoStr) :
    trimRightP p (trimRightP p s) = trimRightP p s := by
  simp [trimRightP, dropWhileP_idem]

theorem dropWhile_head_not (p : Char → Bool) : ∀ (l : List Char) (c : Char) (rest : List Char),
    l.dropWhile p = c :: rest → p c = false
  | [], c, rest => by simp
  | d :: l, c, rest => by
    intro h
    by_cases hd : p d = true
    · rw [List.dropWhile_cons, if_pos hd] at h
      exact dropWhile_head_not p l c rest h
    · rw [List.dropWhile_cons, if_neg hd] at h
      injection h with h1 _
      rw [← h1]
      simpa using hd

theorem trimRightP_prefix (p : Char → Bool) (s : GoStr) : trimRightP p s <+: s := by
  rw [← List.reverse_suffix]
  simp only [trimRightP, List.reverse_reverse]
  exact List.dropWhile_suffix p

theorem goTrimSpace_idem (s : GoStr) : goTrimSpace (goTrimSpace s) = goTrimSpace s := by
  unfold goTrimSpace
  have hleft : trimLeftP goIsSpace (trimRightP goIsSpace (trimLeftP goIsSpace s)) =
      trimRightP goIsSpace (trimLeftP goIsSpace s) := by
    rcases hX : trimRightP goIsSpace (trimLeftP goIsSpace s) with _ | ⟨c, rest⟩
    · rfl
    · obtain ⟨t, ht⟩ := trimRightP_prefix goIsSpace (trimLeftP goIsSpace s)
      rw [hX] at ht
      have hc : goIsSpace c = false := by
        apply dropWhile_head_not goIsSpace s c (rest ++ t)
        rw [show s.dropWhile goIsSpace = trimLeftP goIsSpace s from rfl, ← ht]
        simp
      simp [trimLeftP, List.dropWhile_cons, hc]
  rw [hleft, trimRightP_idem]

theorem dashSpelled_trimSpace (s : GoStr) : dashSpelled (goTrimSpace s) = dashSpelled s := by
  show (if utf8Len (goTrimSpace (goTrimSpace s)) > 1
      then str "--" ++ goTrimSpace (goTrimSpace s) else str "-" ++ goTrimSpace (goTrimSpace s)) =
    (if utf8Len (goTrimSpace s) > 1 then str "--" ++ goTrimSpace s
      else str "-" ++ goTrimSpace s)
  rw [goTrimSpace_idem]

theorem prepareFlagArg_trim (sep opener closer value : GoStr) (addDetails : Bool)
    (fl : FlagInfo) :
    prepareFlagArg sep opener closer value addDetails
      { fl with names := fl.names.map goTrimSpace } =
    prepareFlagArg sep opener closer value addDetails fl := by
  obtain ⟨names, usage, tv, val, env⟩ := fl
  rw [prepareFlagArg_eq, prepareFlagArg_eq]
  simp only [List.map_map, Function.comp_def, dashSpelled_trimSpace]
  rfl

/-- C10: each declared flag name is whitespace-trimmed before the dash prefix
is applied, in every rendering mode: mapping `TrimSpace` over all declared
names changes neither the `prepareFlags` result (detailed and synopsis modes,
for every separator/opener/closer/value choice) nor the `PrepareFlags`
tabular records. -/
theorem C10_trimmed_names_render_identically (flags : List Flag)
    (sep opener closer value : GoStr) (addDetails : Bool) :
    prepareFlags (flags.map trimFlagNames) sep opener closer value addDetails =
      prepareFlags flags sep opener closer value addDetails ∧
    PrepareFlags (flags.map trimFlagNames) = PrepareFlags flags := by
  constructor
  · unfold prepareFlags
    rw [prepareFlagsLoop_eq, prepareFlagsLoop_eq, List.filterMap_map]
    congr 1
    refine List.filterMap_congr (fun f _ => ?_)
    obtain ⟨fd, ib, bv, hf⟩ := f
    rcases fd with _ | fl
    · rfl
    · simp only [Function.comp_def, trimFlagNames, Option.map_some']
      rw [prepareFlagArg_trim]
  · rw [PrepareFlags_eq, PrepareFlags_eq, List.filterMap_map]
    refine List.filterMap_congr (fun f _ => ?_)
    obtain ⟨fd, ib, bv, hf⟩ := f
    rcases fd with _ | fl
    · rfl
    · obtain ⟨names, usage, tv, val, env⟩ := fl
      simp only [Function.comp_def, trimFlagNames, Option.map_some']
      rcases names with _ | ⟨n, ns⟩
      · rfl
      · simp [goTrimSpace_idem, dashSpelled_trimSpace, List.map_map, Function.comp_def]

end CliDocs
